import Mathlib

/-!
Verification of the SearchWithEmbeddings web layer and its indexer contract.

The definitions below are shallow embeddings of the Next.js API route
handlers (`/api/search`, `/api/stats`, `/api/document/[id]`) and of the
result-grouping helper of the results list component, together with a
model of the external indexer engine reconstructed from the design
document where the engine itself is not part of the supplied sources.
Relevance scores are modelled as rationals, optional JSON fields as
`Option`, and file-system paths as lists of characters.
-/

/-! ## JavaScript-style helpers -/

/-- JavaScript truthiness coalescing for an optional string: `s || undefined`
maps both a missing value and the empty string to `none`. -/
def jsStr (s : Option String) : Option String :=
  match s with
  | some v => if v = "" then none else some v
  | none => none

/-- JavaScript truthiness coalescing for an optional number: `n || fallback`
treats both a missing value and `0` as falsy. -/
def jsNum (n : Option Nat) (fallback : Nat) : Nat :=
  match n with
  | some k => if k = 0 then fallback else k
  | none => fallback

/-- Whitespace characters removed by `String.prototype.trim`. -/
def jsWs (c : Char) : Bool :=
  c == ' ' || c == '\t' || c == '\n' || c == '\r'

/-- Model of `String.prototype.trim` on the character list of a string. -/
def trimWs (l : List Char) : List Char :=
  ((l.dropWhile jsWs).reverse.dropWhile jsWs).reverse

/-- Uppercasing a string, as `String.prototype.toUpperCase` on ASCII data. -/
def upperStr (s : String) : String :=
  String.mk (s.data.map Char.toUpper)

/-- Model of `String.prototype.includes`: does `pat` occur as a contiguous
substring of `s`? -/
def hasSub (s pat : List Char) : Bool :=
  match s with
  | [] => pat.isEmpty
  | c :: t => pat.isPrefixOf (c :: t) || hasSub t pat

/-- Model of `String.prototype.startsWith` over string data. -/
def strStarts (s pre : String) : Bool :=
  pre.data.isPrefixOf s.data

/-- Insertion step of a stable comparison sort: place `a` before the first
element `b` it compares no greater than. -/
def jsSortInsert (le : α → α → Bool) (a : α) : List α → List α
  | [] => [a]
  | b :: l => if le a b then a :: b :: l else b :: jsSortInsert le a l

/-- Stable comparison sort modelling `Array.prototype.sort` with a
comparator: `le a b` holds when the comparator orders `a` no later
than `b`. -/
def jsSort (le : α → α → Bool) : List α → List α
  | [] => []
  | a :: l => jsSortInsert le a (jsSort le l)

/-! ## Data model of the search route (`src/app/src/app/api/search/route.ts`) -/

/-- A resolved user record as returned by `getCurrentUser`: the fields the
search route consults. `division` is nullable in the schema. -/
structure AppUser where
  uid : String
  role : String
  division : Option String
deriving Repr, DecidableEq

/-- The JSON body of a `POST /search` request (`SearchRequest` in the route). -/
structure SearchRequest where
  query : Option String
  limit : Option Nat
  search_mode : Option String
  division : Option String
  file_type : Option String
deriving Repr, DecidableEq

/-- One result object in the indexer's `/search` reply, with every field the
route reads modelled as optional, as the route treats them defensively. -/
structure EngineResult where
  rid : Option String
  file_path : Option String
  path : Option String
  file_name : Option String
  page_number : Option Int
  text_content : Option String
  division : Option String
  score : Option ℚ
deriving Repr, DecidableEq

/-- The JSON payload of an OK reply from the indexer's `/search`. -/
structure EngineData where
  results : Option (List EngineResult)
  total_results : Option Nat
deriving Repr, DecidableEq

/-- Outcome of the route's `fetch` to the indexer: either the call (or JSON
parsing) threw, or the indexer replied with an HTTP status and payload. -/
inductive EngineOutcome where
  | threw : EngineOutcome
  | replied : Nat → EngineData → EngineOutcome
deriving Repr, DecidableEq

/-- The JSON body and status of the route's HTTP response. -/
structure SearchResponse where
  status : Nat
  error : Option String
  results : Option (List EngineResult)
  total : Option Nat
  total_results : Option Nat
deriving Repr, DecidableEq

/-- The observable outcome of one `POST /search` execution: the response,
whether the indexer was contacted, and whether a search-history/activity
record was written. -/
structure PostSearchOutcome where
  response : SearchResponse
  engineCalled : Bool
  trackedSearch : Bool
deriving Repr, DecidableEq

/-- The route's emptiness test `!body.query?.trim()`. -/
def queryBlank (body : SearchRequest) : Bool :=
  match body.query with
  | none => true
  | some q => (trimWs q.data).isEmpty

/-- Resolution of the division filter forwarded to the indexer (route lines
67–78): admins and CENADI directors may pass an explicit division (all
divisions when omitted); every other authenticated user is forced to their
own division; an unauthenticated caller yields no filter. -/
def resolveDivisionFilter (user : Option AppUser) (body : SearchRequest) :
    Option String :=
  match user with
  | none => none
  | some u =>
    if u.role = "ADMIN" ∨ u.role = "CENADI_DIRECTOR" then jsStr body.division
    else jsStr u.division

/-- Minimum relevance threshold hard-coded in the route. -/
def MIN_SCORE_THRESHOLD : ℚ := mkRat 3 10

/-- The score the route's threshold filter sees: `result.score || 0`. -/
def effScore (r : EngineResult) : ℚ :=
  (r.score).getD 0

/-- The document path the route's division post-filter inspects:
`result.file_path || result.path || ""`. -/
def docPath (r : EngineResult) : String :=
  match jsStr r.file_path with
  | some p => p
  | none =>
    match jsStr r.path with
    | some p => p
    | none => ""

/-- The division post-filter predicate of route lines 114–120, applied with
the uppercased user division `d`. -/
def divisionKeep (d : String) (r : EngineResult) : Bool :=
  hasSub (upperStr (docPath r)).data ("/" ++ d ++ "/").data
    || strStarts (upperStr (docPath r)) (d ++ "/")
    || (match jsStr r.division with
        | some rd => upperStr rd == d
        | none => false)

/-- Shallow embedding of the `POST /search` handler, as a function of the
request body, the resolved session user, and the indexer call's outcome. -/
def postSearch (body : SearchRequest) (user : Option AppUser)
    (engine : EngineOutcome) : PostSearchOutcome :=
  if queryBlank body then
    ⟨⟨400, some "Query is required", none, none, none⟩, false, false⟩
  else
    match engine with
    | .threw => ⟨⟨500, some "Internal server error", none, none, none⟩, true, false⟩
    | .replied st data =>
      if 200 ≤ st ∧ st < 300 then
        let results1 : Option (List EngineResult) :=
          match data.results with
          | some rs => some (rs.filter fun r => decide (MIN_SCORE_THRESHOLD ≤ effScore r))
          | none => none
        let results2 : Option (List EngineResult) :=
          match user with
          | some u =>
            if u.role ≠ "ADMIN" ∧ u.role ≠ "CENADI_DIRECTOR" then
              match jsStr u.division with
              | some d =>
                match results1 with
                | some rs => some (rs.filter (divisionKeep (upperStr d)))
                | none => none
              | none => results1
            else results1
          | none => results1
        let resultCount : Nat :=
          match results2 with
          | some rs => rs.length
          | none => 0
        let totalVal : Nat := jsNum data.total_results resultCount
        ⟨⟨200, none, results2, some totalVal, some totalVal⟩, true, user.isSome⟩
      else
        ⟨⟨st, some "Search service error", none, none, none⟩, true, false⟩

/-! ## Spec-modelled indexer engine

The indexer service is an external HTTP collaborator: its implementation is
not among the supplied sources, only the contract in the design document.
The definitions below reconstruct the parts of that contract the claims
need. -/

/-- Modelled from the spec: one indexed page record of the Vector/Keyword
Index Stores (design document section 3), carrying the metadata the
`/search` contract exposes, with its denormalized division tag. The
engine's implementation is not part of the supplied sources. -/
structure IndexedPage where
  pid : String
  file_path : String
  file_name : String
  page_number : Nat
  text_content : String
  division : String
  score : ℚ
deriving Repr, DecidableEq

/-- Modelled from the spec: conversion of an indexed page to a `/search`
result object of the engine's HTTP contract (design document section 6);
the engine's implementation is not part of the supplied sources. -/
def pageToResult (p : IndexedPage) : EngineResult :=
  ⟨some p.pid, some p.file_path, none, some p.file_name,
    some (Int.ofNat p.page_number), some p.text_content,
    some p.division, some p.score⟩

/-- Modelled from the spec: the engine's `POST /search` on an index, with
pre-search division filtering (design document sections 4.3 and 4.5) and
ranked output truncated to the requested limit. The engine's
implementation is not part of the supplied sources; `score` stands for the
query-dependent (fused) relevance of each page. -/
def engineSearch (index : List IndexedPage) (divFilter : Option String)
    (limit : Nat) : EngineData :=
  let eligible : List IndexedPage :=
    match divFilter with
    | some d => index.filter fun p => p.division == d
    | none => index
  let ranked := (jsSort (fun a b => decide (b.score ≤ a.score)) eligible).take limit
  ⟨some (ranked.map pageToResult), some (ranked.map pageToResult).length⟩

/-- The full `POST /search` path: the route resolves the division filter,
calls the (spec-modelled) engine with it and the requested limit
(`body.limit || 50`), and post-processes the reply. -/
def searchPipeline (index : List IndexedPage) (body : SearchRequest)
    (user : Option AppUser) : PostSearchOutcome :=
  postSearch body user
    (.replied 200
      (engineSearch index (resolveDivisionFilter user body)
        (jsNum body.limit 50)))

/-! ## Spec-modelled hybrid query planner degradation -/

/-- Modelled from the spec: a page hit of one retrieval backend of the
hybrid query planner (page id with normalized score); the planner's
implementation is not part of the supplied sources. -/
structure BackendHit where
  pid : String
  score : ℚ
deriving Repr, DecidableEq

/-- Modelled from the spec: the outcome of a hybrid-mode query at the
planner, either ranked hits with a degraded-mode flag or a
service-unavailable error; the planner's implementation is not part of the
supplied sources. -/
inductive PlannerOutcome where
  | ok : List BackendHit → Bool → PlannerOutcome
  | serviceUnavailable : PlannerOutcome
deriving Repr, DecidableEq

/-- Modelled from the spec: score fusion of the hybrid query planner
(design document section 4.5 step 2) with weights 0.4 keyword / 0.6
semantic over normalized scores, joined by page id. The planner's
implementation is not part of the supplied sources. -/
def fuseHits (semHits kwHits : List BackendHit) : List BackendHit :=
  ((kwHits.map BackendHit.pid ++ semHits.map BackendHit.pid).dedup).map fun i =>
    ⟨i, mkRat 4 10 * (((kwHits.find? fun h => h.pid == i).map BackendHit.score).getD 0)
      + mkRat 6 10 * (((semHits.find? fun h => h.pid == i).map BackendHit.score).getD 0)⟩

/-- Modelled from the spec: failure semantics of a `hybrid`-mode query
(design document section 4.5): both backends up fuses normally; one
backend unreachable degrades to the other backend's results with the
degraded flag set; both unreachable is a service-unavailable error. The
planner's implementation is not part of the supplied sources. -/
def hybridQuery (vectorUp keywordUp : Bool)
    (semHits kwHits : List BackendHit) : PlannerOutcome :=
  if vectorUp && keywordUp then .ok (fuseHits semHits kwHits) false
  else if keywordUp then .ok kwHits true
  else if vectorUp then .ok semHits true
  else .serviceUnavailable

/-! ## Stats route (`src/app/src/app/api/stats/route.ts`) -/

/-- Outcome of the stats route's `fetch` of the indexer's `GET /stats`:
the call threw (service unreachable), or replied with a status and the two
aggregate counters of the payload. -/
inductive StatsEngineOutcome where
  | unreachable : StatsEngineOutcome
  | replied : Nat → Option Nat → Option Nat → StatsEngineOutcome
deriving Repr, DecidableEq

/-- The JSON body of a successful `GET /api/stats` response. -/
structure StatsResponse where
  documents : Nat
  divisions : Nat
  users : Nat
  searches : Nat
deriving Repr, DecidableEq

/-- The document count the stats route reports: `0` unless the indexer
replied OK, in which case `data.total_pages || data.total_documents || 0`. -/
def statsDocumentCount (engine : StatsEngineOutcome) : Nat :=
  match engine with
  | .unreachable => 0
  | .replied st total_pages total_documents =>
    if 200 ≤ st ∧ st < 300 then jsNum total_pages (jsNum total_documents 0)
    else 0

/-- Shallow embedding of the `GET /api/stats` handler's success path, as a
function of the three database counts and the indexer call's outcome. -/
def statsGET (userCount divisionCount searchCount : Nat)
    (engine : StatsEngineOutcome) : StatsResponse :=
  ⟨statsDocumentCount engine,
    if divisionCount = 0 then 6 else divisionCount,
    userCount, searchCount⟩

/-! ## Document route (`src/app/src/app/api/document/[id]/route.ts`)

Paths are modelled as lists of characters; `path.join` and the operating
system's resolution of `.` and `..` segments on an absolute path are
modelled by segment-wise normalization. -/

/-- Splitting a character list into its `/`-separated segments. -/
def splitSegs (cs : List Char) : List (List Char) :=
  match cs with
  | [] => [[]]
  | c :: t =>
    if c = '/' then [] :: splitSegs t
    else
      match splitSegs t with
      | s :: rest => (c :: s) :: rest
      | [] => [[c]]

/-- Normalization of the segments of an absolute path: empty and `.`
segments vanish, `..` pops the previous segment (and is dropped at the
root), mirroring `path.normalize` on an absolute path. -/
def normSegsAux (acc : List (List Char)) (segs : List (List Char)) :
    List (List Char) :=
  match segs with
  | [] => acc.reverse
  | s :: rest =>
    if s.isEmpty then normSegsAux acc rest
    else if s = ['.'] then normSegsAux acc rest
    else if s = ['.', '.'] then
      match acc with
      | [] => normSegsAux [] rest
      | _ :: t => normSegsAux t rest
    else normSegsAux (s :: acc) rest

/-- Normalized form of an absolute path given as characters. -/
def joinAbs (cs : List Char) : List Char :=
  '/' :: List.intercalate ['/'] (normSegsAux [] (splitSegs cs))

/-- Model of Node's `path.join(base, rel)` for an absolute `base`:
concatenate and normalize. -/
def joinPath (base rel : List Char) : List Char :=
  joinAbs (base ++ '/' :: rel)

/-- The configured documents directory (default of `DOCUMENTS_DIR`). -/
def DOCUMENTS_DIR : String := "/app/documents"

/-- The full path the document route builds from the URL-decoded id (route
lines 38–57): rewrite a leading `/documents/` to `/app/documents/`; keep a
path already starting with the documents directory as is; otherwise join
it (relative, with a leading `/` stripped) onto the documents directory. -/
def documentFullPath (decoded : List Char) : List Char :=
  let p : List Char :=
    if ("/documents/".data).isPrefixOf decoded
    then "/app/documents/".data ++ decoded.drop 11
    else decoded
  if (DOCUMENTS_DIR.data).isPrefixOf p then p
  else if (['/']).isPrefixOf p then joinPath DOCUMENTS_DIR.data (p.drop 1)
  else joinPath DOCUMENTS_DIR.data p

/-- The division access check of route lines 66–77: admins and directors
skip it; a user with a (truthy) division needs the uppercased full path to
contain the division between slashes or backslashes. -/
def docAccessOk (u : AppUser) (fullPath : List Char) : Bool :=
  if u.role = "ADMIN" ∨ u.role = "CENADI_DIRECTOR" then true
  else
    match jsStr u.division with
    | none => true
    | some d =>
      let dU := (upperStr d).data
      let pU := fullPath.map Char.toUpper
      hasSub pU ('/' :: dU ++ ['/']) || hasSub pU ('\\' :: dU ++ ['\\'])

/-- The observable outcome of one `GET /api/document/[id]` execution; the
`served` constructor carries the resolved path whose bytes are returned. -/
inductive DocOutcome where
  | unauthorized : DocOutcome
  | forbiddenPath : DocOutcome
  | forbiddenDivision : DocOutcome
  | notFound : DocOutcome
  | served : List Char → DocOutcome
deriving Repr, DecidableEq

/-- Shallow embedding of the `GET /api/document/[id]` handler, as a
function of the session user, the URL-decoded id, and the set of files
that exist (queried at the operating system's resolution of the built
path). -/
def documentGET (user : Option AppUser) (decodedId : List Char)
    (fileExists : List Char → Bool) : DocOutcome :=
  match user with
  | none => .unauthorized
  | some u =>
    let fullPath := documentFullPath decodedId
    if ¬ ((DOCUMENTS_DIR.data).isPrefixOf fullPath) then .forbiddenPath
    else if ¬ docAccessOk u fullPath then .forbiddenDivision
    else if ¬ fileExists (joinAbs fullPath) then .notFound
    else .served (joinAbs fullPath)

/-- A path lies inside the documents directory when, after resolution, it
is the directory itself or a descendant of it. -/
def insideDocumentsDir (p : List Char) : Bool :=
  p == DOCUMENTS_DIR.data || (DOCUMENTS_DIR.data ++ ['/']).isPrefixOf p

/-! ## Result grouping (`groupResultsByDocument` in the results list
component, `src/unnamed/part_003`) -/

/-- A page-level search result as the results list component receives it. -/
structure PageResult where
  sid : String
  file_path : String
  file_name : String
  page_number : Int
  text_content : String
  division : String
  score : ℚ
deriving Repr, DecidableEq

/-- A per-document group of page results. -/
structure GroupedDocument where
  file_path : String
  file_name : String
  division : String
  bestScore : ℚ
  pages : List PageResult
deriving Repr, DecidableEq

/-- The grouping key of a result: `result.file_path || result.file_name`. -/
def resultKey (r : PageResult) : String :=
  if r.file_path = "" then r.file_name else r.file_path

/-- The key under which a group is stored in the map; it coincides with the
grouping key of the result that created the group. -/
def groupKey (g : GroupedDocument) : String :=
  if g.file_path = "" then g.file_name else g.file_path

/-- One step of the grouping loop: append `r` to its group (updating the
best score) or create a fresh group at the end, mirroring insertion order
of a JavaScript `Map`. -/
def insertResult (gs : List GroupedDocument) (r : PageResult) :
    List GroupedDocument :=
  match gs with
  | [] => [⟨r.file_path, r.file_name, r.division, r.score, [r]⟩]
  | g :: rest =>
    if groupKey g = resultKey r then
      ⟨g.file_path, g.file_name, g.division, max g.bestScore r.score,
        g.pages ++ [r]⟩ :: rest
    else g :: insertResult rest r

/-- Shallow embedding of `groupResultsByDocument`: group results by key,
sort groups by descending best score, and sort the pages of each group by
ascending page number (stable sorts, as JavaScript's `Array.prototype.sort`). -/
def groupResultsByDocument (results : List PageResult) : List GroupedDocument :=
  (jsSort (fun a b => decide (b.bestScore ≤ a.bestScore))
      (results.foldl insertResult [])).map
    fun g =>
      ⟨g.file_path, g.file_name, g.division, g.bestScore,
        jsSort (fun a b => decide (a.page_number ≤ b.page_number)) g.pages⟩

/-! ## Helper lemmas -/

theorem jsSortInsert_perm (le : α → α → Bool) (a : α) :
    ∀ l : List α, (jsSortInsert le a l).Perm (a :: l) := by
  intro l
  induction l with
  | nil => exact .refl _
  | cons b t ih =>
    unfold jsSortInsert
    cases hab : le a b with
    | true => simp
    | false => exact (ih.cons b).trans (List.Perm.swap a b t)

theorem jsSort_perm (le : α → α → Bool) : ∀ l : List α, (jsSort le l).Perm l
  | [] => .refl _
  | a :: l => (jsSortInsert_perm le a (jsSort le l)).trans ((jsSort_perm le l).cons a)

theorem mem_jsSort (le : α → α → Bool) (l : List α) (x : α) :
    x ∈ jsSort le l ↔ x ∈ l :=
  (jsSort_perm le l).mem_iff

theorem pairwise_jsSortInsert (le : α → α → Bool)
    (htrans : ∀ a b c, le a b = true → le b c = true → le a c = true)
    (htot : ∀ a b, le a b = false → le b a = true) (a : α) :
    ∀ l : List α, (l.Pairwise fun x y => le x y = true) →
      (jsSortInsert le a l).Pairwise fun x y => le x y = true := by
  intro l
  induction l with
  | nil => intro _; simp [jsSortInsert]
  | cons b t ih =>
    intro h
    rw [List.pairwise_cons] at h
    unfold jsSortInsert
    cases hab : le a b with
    | true =>
      rw [if_pos rfl, List.pairwise_cons]
      refine ⟨?_, List.pairwise_cons.mpr h⟩
      intro x hx
      rcases List.mem_cons.mp hx with rfl | hx
      · exact hab
      · exact htrans a b x hab (h.1 x hx)
    | false =>
      rw [if_neg (by simp), List.pairwise_cons]
      refine ⟨?_, ih h.2⟩
      intro x hx
      rcases List.mem_cons.mp ((jsSortInsert_perm le a t).mem_iff.mp hx) with hxa | hx
      · rw [hxa]; exact htot a b hab
      · exact h.1 x hx

theorem pairwise_jsSort (le : α → α → Bool)
    (htrans : ∀ a b c, le a b = true → le b c = true → le a c = true)
    (htot : ∀ a b, le a b = false → le b a = true) :
    ∀ l : List α, (jsSort le l).Pairwise fun x y => le x y = true
  | [] => by simp [jsSort]
  | a :: l =>
    pairwise_jsSortInsert le htrans htot a _ (pairwise_jsSort le htrans htot l)

theorem trimWs_eq_nil_of_all (l : List Char) (h : ∀ c ∈ l, jsWs c = true) :
    trimWs l = [] := by
  unfold trimWs
  have h1 : l.dropWhile jsWs = [] := by
    rw [List.dropWhile_eq_nil_iff]
    exact h
  rw [h1]
  simp

theorem queryBlank_of_ws (body : SearchRequest)
    (hq : body.query = none ∨
      ∃ q, body.query = some q ∧ ∀ c ∈ q.data, jsWs c = true) :
    queryBlank body = true := by
  unfold queryBlank
  rcases hq with h | ⟨q, hq, hws⟩
  · rw [h]
  · rw [hq]
    simp [trimWs_eq_nil_of_all q.data hws]

/-! ## Claim theorems -/

/-- Claim C2: for every `POST /search` request, an authenticated admin or
CENADI director gets the explicit division parameter as filter when one is
present (defaulting to all divisions when it is omitted or empty), while
every other authenticated caller's filter equals their own division
(normalized by JavaScript truthiness) regardless of the request body. -/
theorem search_division_filter_resolution (u : AppUser) (body : SearchRequest) :
    ((u.role = "ADMIN" ∨ u.role = "CENADI_DIRECTOR") →
      (∀ d, body.division = some d → d ≠ "" →
        resolveDivisionFilter (some u) body = some d) ∧
      ((body.division = none ∨ body.division = some "") →
        resolveDivisionFilter (some u) body = none)) ∧
    (u.role ≠ "ADMIN" → u.role ≠ "CENADI_DIRECTOR" →
      ∀ body2 : SearchRequest,
        resolveDivisionFilter (some u) body2 = jsStr u.division) := by
  constructor
  · intro hrole
    constructor
    · intro d hd hne
      simp [resolveDivisionFilter, hrole, jsStr, hd, hne]
    · intro hd
      rcases hd with hd | hd <;> simp [resolveDivisionFilter, hrole, jsStr, hd]
  · intro h1 h2 body2
    have hrole : ¬(u.role = "ADMIN" ∨ u.role = "CENADI_DIRECTOR") := by
      intro hc
      rcases hc with h | h
      · exact h1 h
      · exact h2 h
    simp [resolveDivisionFilter, hrole]

theorem search_division_filter_resolution_witness :
    resolveDivisionFilter (some ⟨"u1", "ADMIN", none⟩)
      ⟨some "q", none, none, some "DSI", none⟩ = some "DSI" :=
  ((search_division_filter_resolution ⟨"u1", "ADMIN", none⟩
      ⟨some "q", none, none, some "DSI", none⟩).1 (Or.inl rfl)).1
    "DSI" rfl (by decide)

/-- Claim C4: for every `POST /search` request that reaches the engine call,
a non-OK engine reply yields an explicit error response carrying the
engine's status, and a thrown engine call yields an explicit 500 error
response; neither is a success response with an empty results list. -/
theorem search_engine_failure_explicit_error (body : SearchRequest)
    (user : Option AppUser) (hq : queryBlank body = false) :
    (∀ st data, ¬(200 ≤ st ∧ st < 300) →
      (postSearch body user (.replied st data)).response =
        ⟨st, some "Search service error", none, none, none⟩) ∧
    (postSearch body user .threw).response =
      ⟨500, some "Internal server error", none, none, none⟩ := by
  constructor
  · intro st data hst
    simp [postSearch, hq, hst]
  · simp [postSearch, hq]

theorem search_engine_failure_explicit_error_witness :
    (postSearch ⟨some "q", none, none, none, none⟩ none
        (.replied 503 ⟨none, none⟩)).response =
      ⟨503, some "Search service error", none, none, none⟩ :=
  (search_engine_failure_explicit_error ⟨some "q", none, none, none, none⟩
      none (by decide)).1 503 ⟨none, none⟩ (by decide)

/-- Claim C5: two executions of the `POST /search` handler with the same
request body, the same resolved user, and the same engine outcome produce
identical outcomes, response body and result order included; the handler's
output depends on nothing else. -/
theorem search_handler_deterministic (body : SearchRequest)
    (user : Option AppUser) (engine : EngineOutcome)
    (o1 o2 : PostSearchOutcome)
    (h1 : o1 = postSearch body user engine)
    (h2 : o2 = postSearch body user engine) : o1 = o2 := by
  rw [h1, h2]

theorem search_handler_deterministic_witness :
    postSearch ⟨some "q", none, none, none, none⟩ none .threw =
      postSearch ⟨some "q", none, none, none, none⟩ none .threw :=
  search_handler_deterministic ⟨some "q", none, none, none, none⟩ none .threw
    _ _ rfl rfl

/-- Claim C6: in the spec-modelled hybrid query planner, a `hybrid` query
with the vector backend unreachable (and the keyword backend reachable)
returns exactly the keyword results with the degraded flag set, and
symmetrically a query with the keyword backend unreachable returns the
semantic results flagged degraded. -/
theorem hybrid_query_degradation (semHits kwHits : List BackendHit) :
    hybridQuery false true semHits kwHits = .ok kwHits true ∧
    hybridQuery true false semHits kwHits = .ok semHits true :=
  ⟨rfl, rfl⟩

/-- Claim C9: a `POST /search` request whose query is missing, empty, or
whitespace-only is answered with a 400 error, without contacting the
engine and without recording any search-history or activity-log entry. -/
theorem search_blank_query_rejected (body : SearchRequest)
    (user : Option AppUser) (engine : EngineOutcome)
    (hq : body.query = none ∨
      ∃ q, body.query = some q ∧ ∀ c ∈ q.data, jsWs c = true) :
    postSearch body user engine =
      ⟨⟨400, some "Query is required", none, none, none⟩, false, false⟩ := by
  have hb := queryBlank_of_ws body hq
  simp [postSearch, hb]

theorem search_blank_query_rejected_witness :
    postSearch ⟨some "   ", none, none, none, none⟩ none .threw =
      ⟨⟨400, some "Query is required", none, none, none⟩, false, false⟩ :=
  search_blank_query_rejected ⟨some "   ", none, none, none, none⟩ none .threw
    (Or.inr ⟨"   ", rfl, by decide⟩)

/-- Claim C7 counterexample: when the indexer replies OK with
`total_pages = 5` and `total_documents = 2`, the stats route reports 5
documents, not the engine's `total_documents` figure 2. -/
theorem stats_total_documents_counterexample :
    (statsGET 1 6 0 (.replied 200 (some 5) (some 2))).documents = 5 ∧
    (5 : Nat) ≠ 2 := by decide

/-- Claim C7 (amended): the stats route's reported document count is the
engine's `total_pages` figure when the engine replied OK with a nonzero
`total_pages`; otherwise the `total_documents` figure when nonzero;
otherwise 0; and it is 0 when the reply was not OK or the engine was
unreachable. -/
theorem stats_document_count_resolution (userCount divisionCount searchCount : Nat) :
    ((statsGET userCount divisionCount searchCount .unreachable).documents = 0) ∧
    (∀ st tp td n, 200 ≤ st → st < 300 → tp = some n → n ≠ 0 →
      (statsGET userCount divisionCount searchCount
        (.replied st tp td)).documents = n) ∧
    (∀ st tp td m, 200 ≤ st → st < 300 → (tp = none ∨ tp = some 0) →
      td = some m → m ≠ 0 →
      (statsGET userCount divisionCount searchCount
        (.replied st tp td)).documents = m) ∧
    (∀ st tp td, 200 ≤ st → st < 300 → (tp = none ∨ tp = some 0) →
      (td = none ∨ td = some 0) →
      (statsGET userCount divisionCount searchCount
        (.replied st tp td)).documents = 0) ∧
    (∀ st tp td, ¬(200 ≤ st ∧ st < 300) →
      (statsGET userCount divisionCount searchCount
        (.replied st tp td)).documents = 0) := by
  refine ⟨rfl, ?_, ?_, ?_, ?_⟩
  · intro st tp td n h1 h2 htp hn
    simp [statsGET, statsDocumentCount, h1, h2, htp, jsNum, hn]
  · intro st tp td m h1 h2 htp htd hm
    rcases htp with htp | htp <;>
      simp [statsGET, statsDocumentCount, h1, h2, htp, htd, jsNum, hm]
  · intro st tp td h1 h2 htp htd
    rcases htp with htp | htp <;> rcases htd with htd | htd <;>
      simp [statsGET, statsDocumentCount, h1, h2, htp, htd, jsNum]
  · intro st tp td hst
    simp [statsGET, statsDocumentCount, hst]

theorem stats_document_count_resolution_witness :
    (statsGET 1 6 0 (.replied 200 (some 7) none)).documents = 7 :=
  (stats_document_count_resolution 1 6 0).2.1 200 (some 7) none 7
    (by decide) (by decide) rfl (by decide)

/-- Claim C8: the document route's path confinement is defeated: for the
URL-decoded id `/app/documents/../../etc/passwd` and an authenticated
admin, the handler's prefix check passes without normalization and the
bytes served resolve to `/etc/passwd`, which lies outside the documents
directory, instead of the 403 the route's own security comment promises. -/
theorem document_route_traversal :
    documentGET (some ⟨"u1", "ADMIN", none⟩)
        ("/app/documents/../../etc/passwd".data)
        (fun p => p == "/etc/passwd".data) = .served ("/etc/passwd".data) ∧
    insideDocumentsDir ("/etc/passwd".data) = false := by decide

/-- Post-filtering of the success path of the search route (lines 110–122),
factored out for the proofs below. -/
def postFilter (user : Option AppUser) (o : Option (List EngineResult)) :
    Option (List EngineResult) :=
  match user with
  | some u =>
    if u.role ≠ "ADMIN" ∧ u.role ≠ "CENADI_DIRECTOR" then
      match jsStr u.division with
      | some d => o.map fun rs => rs.filter (divisionKeep (upperStr d))
      | none => o
    else o
  | none => o

theorem postSearch_threw (body : SearchRequest) (user : Option AppUser) :
    (postSearch body user .threw).response.results = none := by
  by_cases hq : queryBlank body = true <;> simp [postSearch, hq]

theorem postSearch_success_shape (body : SearchRequest) (user : Option AppUser)
    (st : Nat) (data : EngineData)
    (hq : queryBlank body = false) (hst : 200 ≤ st ∧ st < 300) :
    (postSearch body user (.replied st data)).response.results =
      postFilter user ((data.results).map fun rs =>
        rs.filter fun r => decide (MIN_SCORE_THRESHOLD ≤ effScore r)) := by
  cases user with
  | none =>
    cases hdr : data.results <;>
      simp [postSearch, postFilter, hq, hst, hdr]
  | some u =>
    by_cases hrole : u.role ≠ "ADMIN" ∧ u.role ≠ "CENADI_DIRECTOR"
    · cases hdiv : jsStr u.division <;> cases hdr : data.results <;>
        simp [postSearch, postFilter, hq, hst, hrole, hdiv, hdr,
          List.filter_filter]
    · cases hdr : data.results <;>
        simp [postSearch, postFilter, hq, hst, hrole, hdr]

theorem postFilter_none (user : Option AppUser) :
    postFilter user none = none := by
  cases user with
  | none => rfl
  | some u =>
    by_cases hrole : u.role ≠ "ADMIN" ∧ u.role ≠ "CENADI_DIRECTOR"
    · cases hdiv : jsStr u.division <;> simp [postFilter, hrole, hdiv]
    · simp [postFilter, hrole]

theorem postFilter_mem (user : Option AppUser) (l rs : List EngineResult)
    (r : EngineResult) (h : postFilter user (some l) = some rs)
    (hr : r ∈ rs) : r ∈ l := by
  cases user with
  | none =>
    simp only [postFilter] at h
    cases h
    exact hr
  | some u =>
    simp only [postFilter] at h
    by_cases hrole : u.role ≠ "ADMIN" ∧ u.role ≠ "CENADI_DIRECTOR"
    · rw [if_pos hrole] at h
      cases hdiv : jsStr u.division with
      | none =>
        simp only [hdiv] at h
        cases h
        exact hr
      | some d =>
        simp only [hdiv, Option.map_some'] at h
        cases h
        exact (List.mem_filter.mp hr).1
    · rw [if_neg hrole] at h
      cases h
      exact hr

theorem postSearch_mem_results (body : SearchRequest) (user : Option AppUser)
    (st : Nat) (data : EngineData) (rs : List EngineResult) (r : EngineResult)
    (hres : (postSearch body user (.replied st data)).response.results = some rs)
    (hr : r ∈ rs) :
    ∃ el, data.results = some el ∧ r ∈ el ∧
      MIN_SCORE_THRESHOLD ≤ effScore r := by
  by_cases hq : queryBlank body = true
  · simp [postSearch, hq] at hres
  · have hq2 : queryBlank body = false := by
      rwa [Bool.not_eq_true] at hq
    by_cases hst : 200 ≤ st ∧ st < 300
    · rw [postSearch_success_shape body user st data hq2 hst] at hres
      cases hdr : data.results with
      | none =>
        rw [hdr] at hres
        simp only [Option.map_none'] at hres
        rw [postFilter_none] at hres
        exact absurd hres (by simp)
      | some el =>
        rw [hdr] at hres
        simp only [Option.map_some'] at hres
        have hr2 := postFilter_mem user _ rs r hres hr
        have hf := List.mem_filter.mp hr2
        exact ⟨el, rfl, hf.1, of_decide_eq_true hf.2⟩
    · simp [postSearch, hq2, hst] at hres

/-- Claim C3: in every successful `POST /search` response, every returned
result scores at least the minimum relevance threshold 0.3, and every
engine result scoring below the threshold (a missing score counting as 0)
is absent from the returned list. -/
theorem search_min_score_threshold (body : SearchRequest)
    (user : Option AppUser) (st : Nat) (data : EngineData)
    (rs : List EngineResult)
    (hres : (postSearch body user (.replied st data)).response.results = some rs) :
    (∀ r ∈ rs, MIN_SCORE_THRESHOLD ≤ effScore r) ∧
    (∀ el, data.results = some el →
      ∀ r ∈ el, effScore r < MIN_SCORE_THRESHOLD → r ∉ rs) := by
  constructor
  · intro r hr
    obtain ⟨el, hel, hmem, hsc⟩ :=
      postSearch_mem_results body user st data rs r hres hr
    exact hsc
  · intro el hel r hmem hlow hin
    obtain ⟨el2, hel2, hmem2, hsc⟩ :=
      postSearch_mem_results body user st data rs r hres hin
    exact absurd hsc (not_le.mpr hlow)

/-- A high-scoring engine result used in concrete witnesses. -/
def goodR : EngineResult :=
  ⟨some "1", some "/documents/DSI/a.pdf", none, some "a.pdf", some 1,
    some "budget", some "DSI", some (mkRat 9 10)⟩

/-- A low-scoring engine result used in concrete witnesses. -/
def badR : EngineResult :=
  ⟨some "2", some "/documents/DSI/b.pdf", none, some "b.pdf", some 1,
    some "budget", some "DSI", some (mkRat 1 10)⟩

theorem search_min_score_threshold_witness :
    (∀ r ∈ [goodR], MIN_SCORE_THRESHOLD ≤ effScore r) ∧
    (∀ el, (EngineData.mk (some [goodR, badR]) none).results = some el →
      ∀ r ∈ el, effScore r < MIN_SCORE_THRESHOLD → r ∉ [goodR]) :=
  search_min_score_threshold ⟨some "q", none, none, none, none⟩ none 200
    ⟨some [goodR, badR], none⟩ [goodR] (by decide)

/-- A path lies in a division's folder when it starts with the division's
subfolder of the document root. -/
def pathInDivisionFolder (p d : String) : Bool :=
  strStarts p ("/documents/" ++ d ++ "/")

theorem engineSearch_mem (index : List IndexedPage) (d : String) (limit : Nat)
    (el : List EngineResult)
    (hel : (engineSearch index (some d) limit).results = some el)
    (r : EngineResult) (hr : r ∈ el) :
    ∃ p ∈ index, p.division = d ∧ r = pageToResult p := by
  simp only [engineSearch] at hel
  cases hel
  obtain ⟨p, hp, hpr⟩ := List.mem_map.mp hr
  have hp2 : p ∈ jsSort (fun a b => decide (b.score ≤ a.score))
      (index.filter fun q => q.division == d) :=
    List.mem_of_mem_take hp
  have hp3 := (mem_jsSort _ _ p).mp hp2
  have hp4 := List.mem_filter.mp hp3
  exact ⟨p, hp4.1, by simpa using hp4.2, hpr.symm⟩

/-- The DSI copy of a document, for the isolation scenario. -/
def dsiPage : IndexedPage :=
  ⟨"p1", "/documents/DSI/rapport.pdf", "rapport.pdf", 1, "budget annuel",
    "DSI", mkRat 9 10⟩

/-- The DRH copy of the same document, for the isolation scenario. -/
def drhPage : IndexedPage :=
  ⟨"p2", "/documents/DRH/rapport.pdf", "rapport.pdf", 1, "budget annuel",
    "DRH", mkRat 9 10⟩

/-- Claim C1 counterexample: a `POST /search` request that explicitly
scopes the search to division DSI but whose session is absent is forwarded
with no division filter at all, and the response contains the DRH copy of
the document — a result whose division tag and folder are a different
division than the request's scope. -/
theorem search_division_isolation_counterexample :
    (searchPipeline [dsiPage, drhPage]
        ⟨some "budget annuel", none, none, some "DSI", none⟩
        none).response.results =
      some [pageToResult dsiPage, pageToResult drhPage] ∧
    (pageToResult drhPage).division = some "DRH" ∧
    pathInDivisionFolder drhPage.file_path "DSI" = false := by decide

/-- Claim C1 (amended): for an authenticated caller whose resolved division
filter is D1 — an admin or director with an explicit division, or any other
caller with their own division — every result of the full search pipeline
carries division tag D1, and, whenever the index's division tags agree
with the division folder of each page's path, every result's path lies in
D1's folder; for callers without a valid session the explicit division
parameter is dropped and no such isolation holds. -/
theorem search_division_isolation_authenticated (index : List IndexedPage)
    (body : SearchRequest) (u : AppUser) (d1 : String)
    (rs : List EngineResult) (r : EngineResult)
    (hscope : resolveDivisionFilter (some u) body = some d1)
    (hres : (searchPipeline index body (some u)).response.results = some rs)
    (hr : r ∈ rs) :
    r.division = some d1 ∧
    ((∀ p ∈ index, pathInDivisionFolder p.file_path p.division = true) →
      ∃ fp, r.file_path = some fp ∧ pathInDivisionFolder fp d1 = true) := by
  unfold searchPipeline at hres
  rw [hscope] at hres
  obtain ⟨el, hel, hmem, hsc⟩ :=
    postSearch_mem_results body (some u) 200
      (engineSearch index (some d1) (jsNum body.limit 50)) rs r hres hr
  obtain ⟨p, hp, hpd, hpr⟩ :=
    engineSearch_mem index d1 (jsNum body.limit 50) el hel r hmem
  constructor
  · rw [hpr]
    simp [pageToResult, hpd]
  · intro hcons
    refine ⟨p.file_path, ?_, ?_⟩
    · rw [hpr]
      rfl
    · rw [← hpd]
      exact hcons p hp

theorem search_division_isolation_authenticated_witness :
    (pageToResult dsiPage).division = some "DSI" ∧
    ((∀ p ∈ [dsiPage, drhPage],
        pathInDivisionFolder p.file_path p.division = true) →
      ∃ fp, (pageToResult dsiPage).file_path = some fp ∧
        pathInDivisionFolder fp "DSI" = true) :=
  search_division_isolation_authenticated [dsiPage, drhPage]
    ⟨some "budget annuel", none, none, none, none⟩
    ⟨"u2", "AGENT", some "DSI"⟩ "DSI" [pageToResult dsiPage]
    (pageToResult dsiPage) (by decide) (by decide) (by decide)

theorem insertResult_flatMap_perm (gs : List GroupedDocument) (r : PageResult) :
    ((insertResult gs r).flatMap GroupedDocument.pages).Perm
      (r :: gs.flatMap GroupedDocument.pages) := by
  induction gs with
  | nil => simp [insertResult]
  | cons g0 rest ih =>
    unfold insertResult
    by_cases hk : groupKey g0 = resultKey r
    · rw [if_pos hk]
      simp only [List.flatMap_cons]
      rw [List.append_assoc, List.singleton_append]
      exact List.perm_middle
    · rw [if_neg hk]
      simp only [List.flatMap_cons]
      exact ((List.Perm.append_left g0.pages ih).trans List.perm_middle)

theorem foldl_insertResult_flatMap_perm :
    ∀ (results : List PageResult) (gs : List GroupedDocument),
      ((results.foldl insertResult gs).flatMap GroupedDocument.pages).Perm
        (results ++ gs.flatMap GroupedDocument.pages)
  | [], gs => by simp
  | r :: rest, gs => by
    simp only [List.foldl_cons, List.cons_append]
    refine (foldl_insertResult_flatMap_perm rest (insertResult gs r)).trans ?_
    refine (List.Perm.append_left rest (insertResult_flatMap_perm gs r)).trans ?_
    exact List.perm_middle

/-- The loop invariant of the grouping fold: every group is nonempty, keyed
consistently, and carries the maximum score of its pages as best score. -/
def GroupOk (g : GroupedDocument) : Prop :=
  g.pages ≠ [] ∧
  (∀ p ∈ g.pages, resultKey p = groupKey g) ∧
  (∀ p ∈ g.pages, p.score ≤ g.bestScore) ∧
  g.bestScore ∈ g.pages.map PageResult.score

theorem groupOk_insertResult :
    ∀ (gs : List GroupedDocument) (r : PageResult),
      (∀ g ∈ gs, GroupOk g) → ∀ g ∈ insertResult gs r, GroupOk g := by
  intro gs r
  induction gs with
  | nil =>
    intro _ g hg
    simp only [insertResult, List.mem_singleton] at hg
    subst hg
    refine ⟨by simp, ?_, ?_, by simp⟩
    · intro p hp
      simp only [List.mem_singleton] at hp
      subst hp
      rfl
    · intro p hp
      simp only [List.mem_singleton] at hp
      subst hp
      exact le_refl _
  | cons g0 rest ih =>
    intro h g hg
    unfold insertResult at hg
    by_cases hk : groupKey g0 = resultKey r
    · rw [if_pos hk] at hg
      rcases List.mem_cons.mp hg with hg | hg
      · obtain ⟨hne, hkeys, hbound, hmem⟩ := h g0 (List.mem_cons_self g0 rest)
        subst hg
        refine ⟨by simp, ?_, ?_, ?_⟩
        · intro p hp
          rcases List.mem_append.mp hp with hp | hp
          · exact hkeys p hp
          · simp only [List.mem_singleton] at hp
            subst hp
            exact hk.symm
        · intro p hp
          rcases List.mem_append.mp hp with hp | hp
          · exact le_trans (hbound p hp) (le_max_left _ _)
          · simp only [List.mem_singleton] at hp
            subst hp
            exact le_max_right _ _
        · rcases le_total g0.bestScore r.score with hle | hle
          · rw [max_eq_right hle]
            simp
          · rw [max_eq_left hle]
            simp only [List.map_append, List.mem_append]
            exact Or.inl hmem
      · exact h g (List.mem_cons_of_mem g0 hg)
    · rw [if_neg hk] at hg
      rcases List.mem_cons.mp hg with hg | hg
      · subst hg
        exact h g (List.mem_cons_self g rest)
      · exact ih (fun g2 hg2 => h g2 (List.mem_cons_of_mem g0 hg2)) g hg

theorem groupOk_foldl :
    ∀ (results : List PageResult) (gs : List GroupedDocument),
      (∀ g ∈ gs, GroupOk g) →
      ∀ g ∈ results.foldl insertResult gs, GroupOk g
  | [], _, h => h
  | r :: rest, gs, h =>
    groupOk_foldl rest (insertResult gs r) (groupOk_insertResult gs r h)

theorem insertResult_key_mem :
    ∀ (gs : List GroupedDocument) (r : PageResult),
      ∀ g ∈ insertResult gs r,
        (∃ g1 ∈ gs, groupKey g = groupKey g1) ∨ groupKey g = resultKey r := by
  intro gs r
  induction gs with
  | nil =>
    intro g hg
    simp only [insertResult, List.mem_singleton] at hg
    subst hg
    exact Or.inr rfl
  | cons g0 rest ih =>
    intro g hg
    unfold insertResult at hg
    by_cases hk : groupKey g0 = resultKey r
    · rw [if_pos hk] at hg
      rcases List.mem_cons.mp hg with hg | hg
      · subst hg
        exact Or.inl ⟨g0, List.mem_cons_self g0 rest, rfl⟩
      · exact Or.inl ⟨g, List.mem_cons_of_mem g0 hg, rfl⟩
    · rw [if_neg hk] at hg
      rcases List.mem_cons.mp hg with hg | hg
      · subst hg
        exact Or.inl ⟨g, List.mem_cons_self g rest, rfl⟩
      · rcases ih g hg with ⟨g1, hg1, hkey⟩ | hkey
        · exact Or.inl ⟨g1, List.mem_cons_of_mem g0 hg1, hkey⟩
        · exact Or.inr hkey

theorem keysDistinct_insertResult :
    ∀ (gs : List GroupedDocument) (r : PageResult),
      (gs.Pairwise fun a b => groupKey a ≠ groupKey b) →
      (insertResult gs r).Pairwise fun a b => groupKey a ≠ groupKey b := by
  intro gs r
  induction gs with
  | nil => intro _; simp [insertResult]
  | cons g0 rest ih =>
    intro h
    rw [List.pairwise_cons] at h
    unfold insertResult
    by_cases hk : groupKey g0 = resultKey r
    · rw [if_pos hk, List.pairwise_cons]
      exact ⟨h.1, h.2⟩
    · rw [if_neg hk, List.pairwise_cons]
      refine ⟨?_, ih h.2⟩
      intro g hg
      rcases insertResult_key_mem rest r g hg with ⟨g1, hg1, hkey⟩ | hkey
      · rw [hkey]
        exact h.1 g1 hg1
      · rw [hkey]
        exact hk

theorem keysDistinct_foldl :
    ∀ (results : List PageResult) (gs : List GroupedDocument),
      (gs.Pairwise fun a b => groupKey a ≠ groupKey b) →
      ((results.foldl insertResult gs).Pairwise
        fun a b => groupKey a ≠ groupKey b)
  | [], _, h => h
  | r :: rest, gs, h =>
    keysDistinct_foldl rest (insertResult gs r)
      (keysDistinct_insertResult gs r h)

/-- Claim C10: `groupResultsByDocument` partitions the input results into
groups (the concatenation of all pages is a permutation of the input, and
every page of a group shares the group's key, file path falling back to
file name); distinct groups carry distinct keys, so all results sharing a
key land in the same single group; each group's best score is the maximum
score of its pages and its pages are sorted by ascending page number; the
groups are sorted by descending best score. -/
theorem groupResultsByDocument_spec (results : List PageResult) :
    (((groupResultsByDocument results).flatMap GroupedDocument.pages).Perm
      results) ∧
    (∀ g ∈ groupResultsByDocument results,
      g.pages ≠ [] ∧
      (∀ p ∈ g.pages, resultKey p = groupKey g) ∧
      (∀ p ∈ g.pages, p.score ≤ g.bestScore) ∧
      g.bestScore ∈ g.pages.map PageResult.score ∧
      g.pages.Pairwise fun a b => a.page_number ≤ b.page_number) ∧
    ((groupResultsByDocument results).Pairwise
      fun a b => groupKey a ≠ groupKey b) ∧
    (groupResultsByDocument results).Pairwise
      fun a b => b.bestScore ≤ a.bestScore := by
  have htransG : ∀ a b c : GroupedDocument,
      decide (b.bestScore ≤ a.bestScore) = true →
      decide (c.bestScore ≤ b.bestScore) = true →
      decide (c.bestScore ≤ a.bestScore) = true := by
    intro a b c h1 h2
    simp only [decide_eq_true_eq] at *
    exact le_trans h2 h1
  have htotG : ∀ a b : GroupedDocument,
      decide (b.bestScore ≤ a.bestScore) = false →
      decide (a.bestScore ≤ b.bestScore) = true := by
    intro a b h
    simp only [decide_eq_false_iff_not] at h
    simp only [decide_eq_true_eq]
    exact le_of_not_le h
  have htransP : ∀ a b c : PageResult,
      decide (a.page_number ≤ b.page_number) = true →
      decide (b.page_number ≤ c.page_number) = true →
      decide (a.page_number ≤ c.page_number) = true := by
    intro a b c h1 h2
    simp only [decide_eq_true_eq] at *
    exact le_trans h1 h2
  have htotP : ∀ a b : PageResult,
      decide (a.page_number ≤ b.page_number) = false →
      decide (b.page_number ≤ a.page_number) = true := by
    intro a b h
    simp only [decide_eq_false_iff_not] at h
    simp only [decide_eq_true_eq]
    exact le_of_not_le h
  refine ⟨?_, ?_, ?_, ?_⟩
  · -- permutation
    unfold groupResultsByDocument
    have hmap : ∀ l : List GroupedDocument,
        ((l.map fun g => GroupedDocument.mk g.file_path g.file_name
            g.division g.bestScore
            (jsSort (fun a b => decide (a.page_number ≤ b.page_number))
              g.pages)).flatMap GroupedDocument.pages).Perm
          (l.flatMap GroupedDocument.pages) := by
      intro l
      induction l with
      | nil => simp
      | cons g0 rest ihl =>
        simp only [List.map_cons, List.flatMap_cons]
        exact (jsSort_perm _ g0.pages).append ihl
    refine (hmap _).trans ?_
    refine (List.Perm.flatMap_right GroupedDocument.pages
      (jsSort_perm _ (results.foldl insertResult []))).trans ?_
    have := foldl_insertResult_flatMap_perm results []
    simpa using this
  · -- per-group facts
    intro g hg
    unfold groupResultsByDocument at hg
    obtain ⟨g0, hg0, hgf⟩ := List.mem_map.mp hg
    have hg1 : g0 ∈ results.foldl insertResult [] :=
      (mem_jsSort _ _ g0).mp hg0
    obtain ⟨hne, hkeys, hbound, hmem⟩ :=
      groupOk_foldl results [] (by simp) g0 hg1
    subst hgf
    refine ⟨?_, ?_, ?_, ?_, ?_⟩
    · intro hnil
      have h2 : jsSort (fun a b => decide (a.page_number ≤ b.page_number))
          g0.pages = [] := hnil
      have h3 := jsSort_perm
        (fun a b => decide (a.page_number ≤ b.page_number)) g0.pages
      rw [h2] at h3
      exact hne h3.symm.eq_nil
    · intro p hp
      exact hkeys p ((mem_jsSort _ _ p).mp hp)
    · intro p hp
      exact hbound p ((mem_jsSort _ _ p).mp hp)
    · exact ((jsSort_perm _ g0.pages).map PageResult.score).symm.mem_iff.mp hmem
    · exact (pairwise_jsSort _ htransP htotP g0.pages).imp
        (fun h => of_decide_eq_true h)
  · -- distinct group keys
    unfold groupResultsByDocument
    have hbase := keysDistinct_foldl results [] (by simp)
    have hsorted :
        ((jsSort (fun a b => decide (b.bestScore ≤ a.bestScore))
          (results.foldl insertResult [])).Pairwise
            fun a b => groupKey a ≠ groupKey b) :=
      ((jsSort_perm _ (results.foldl insertResult [])).pairwise_iff
        (fun hxy => fun he => hxy he.symm)).mpr hbase
    refine List.Pairwise.map _ ?_ hsorted
    intro a b h
    exact h
  · -- group ordering
    unfold groupResultsByDocument
    refine List.Pairwise.map _ ?_ (pairwise_jsSort _ htransG htotG _)
    intro a b h
    exact of_decide_eq_true h
